import Mathlib

/-!
Shallow embedding of `torch_audiomentations/utils/io.py` (class `Audio`).

Sample buffers are modelled as lists of channel rows — a `(channel, time)`
2-D array is `List (List ℚ)` with one inner list per channel. Torch tensors
are always rectangular, so rectangularity appears as a hypothesis where a
proof needs it. Sample values on the read path are embedded as rationals
(the float arithmetic of the source, taken exactly); `rms_normalize` needs a
square root, so it is embedded over the reals.

The external collaborators (`torchaudio.info`, `torchaudio.load`,
`librosa.core.resample`) are abstract parameters bundled in `Collab`, as the
core only decides when and how to call them.

Each `raise ValueError` site of the source is a distinct constructor of
`AudioError`, under the name the specification gives that failure.
-/

namespace TorchAudiomentations

/-- First dimension of a 2-D buffer, `shape[0]`: the channel count. -/
def shape0 {α : Type} (b : List (List α)) : ℕ := b.length

/-- Second dimension of a 2-D buffer, `shape[1]`: the time length. For the
rectangular buffers torch produces every row has this length. -/
def shape1 {α : Type} (b : List (List α)) : ℕ := (b.headD []).length

/-- Python's built-in `round`: round half to even (banker's rounding). -/
def pyRound (q : ℚ) : ℤ :=
  if q - ⌊q⌋ < 1/2 then ⌊q⌋
  else if 1/2 < q - ⌊q⌋ then ⌊q⌋ + 1
  else if ⌊q⌋ % 2 = 0 then ⌊q⌋ else ⌊q⌋ + 1

/-- Resolution of one Python slice endpoint for a list of length `len`:
negative indices count from the end, and both ends are clamped to `[0, len]`. -/
def pyBound (len : ℕ) (i : ℤ) : ℕ :=
  if i < 0 then ((len : ℤ) + i).toNat else min i.toNat len

/-- Python slice `l[a:b]` (step 1), with Python's clamping semantics. -/
def pySlice {α : Type} (l : List α) (a b : ℤ) : List α :=
  (l.drop (pyBound l.length a)).take (pyBound l.length b - pyBound l.length a)

/-- Slice every channel row along the time axis: `samples[:, a:b]`. -/
def timeSlice {α : Type} (b : List (List α)) (lo hi : ℤ) : List (List α) :=
  b.map (fun row => pySlice row lo hi)

/-- Time-step `t` of `samples.mean(dim=0)`: the arithmetic mean across
channels. `samples.mean(dim=0, keepdim=True)` is `[meanRow samples]`. -/
def meanRow (b : List (List ℚ)) : List ℚ :=
  (List.range (shape1 b)).map
    (fun t => ((b.map (fun row => row.getD t 0)).sum) / (b.length : ℚ))

/-- Errors surfaced by the embedded code. Each constructor stands for one
distinct `raise` site of the source (all of them plain `ValueError`s in
Python except `indexError`, which is the `IndexError` of an out-of-bounds
`samples[0]`), under the name the specification gives it. -/
inductive AudioError : Type
  | shapeError
  | missingRateError
  | ambiguousSourceError
  | rangeOverflowError
  | indexError
deriving DecidableEq, Repr

/-- The `AudioFile` union accepted by the source: a `str`/`Path`, or a dict
with optional `samples`, `sample_rate`, `audio` and `channel` keys. -/
inductive AudioFile : Type
  | path (p : String)
  | dict (samples : Option (List (List ℚ))) (sample_rate : Option ℤ)
      (audio : Option String) (channel : Option ℤ)

/-- What `torchaudio.info` reports for a path. -/
structure MediaInfo : Type where
  sample_rate : ℤ
  num_frames : ℤ

/-- The external collaborators: `probe` is `torchaudio.info`, `decode` is
`torchaudio.load(path, frame_offset, num_frames)` (the returned rate is
dropped by the source), `resampleSeq` is `librosa.core.resample` on a flat
`(n,)` sequence and `resampleMat` the same primitive on a 2-D array. -/
structure Collab : Type where
  probe : String → MediaInfo
  decode : String → ℤ → ℤ → List (List ℚ)
  resampleSeq : List ℚ → ℤ → ℤ → List ℚ
  resampleMat : List (List ℚ) → ℤ → ℤ → List (List ℚ)

/-- The `Audio` instance configuration: target `sample_rate` and `mono`. -/
structure Audio : Type where
  sample_rate : ℤ
  mono : Bool

/-- `Audio.is_valid`. Inner lists make the buffer 2-D by construction, so of
the source's shape test `len(samples.shape) != 2 or shape[0] > shape[1]`
only the second disjunct is representable. A pure function of the
descriptor: no collaborator is consulted. -/
def Audio.is_valid : AudioFile → Except AudioError Bool
  | .path _ => .ok true
  | .dict samples sample_rate audio _ =>
    match samples with
    | some s =>
      if shape0 s > shape1 s then .error .shapeError
      else
        match sample_rate with
        | none => .error .missingRateError
        | some _ => .ok true
    | none =>
      match audio with
      | some _ => .ok true
      | none => .error .ambiguousSourceError

/-- Line 218: `original_sample_offset = round(sample_offset * original_sample_rate / self.sample_rate)`. -/
def originalSampleOffset (sample_offset native_rate target_rate : ℤ) : ℤ :=
  pyRound ((sample_offset : ℚ) * (native_rate : ℚ) / (target_rate : ℚ))

/-- Lines 221-226: `original_num_samples` is `original_total_num_samples -
original_sample_offset` when `num_samples is None`, else
`round(num_samples * original_sample_rate / self.sample_rate)`. -/
def originalNumSamples (num_samples : Option ℤ)
    (native_total original_sample_offset native_rate target_rate : ℤ) : ℤ :=
  match num_samples with
  | none => native_total - original_sample_offset
  | some n => pyRound ((n : ℚ) * (native_rate : ℚ) / (target_rate : ℚ))

/-- Lines 191-216 of `Audio.__call__`: resolve the descriptor into
`(original_samples, audio_path, original_sample_rate,
original_total_num_samples, channel)`. The last `dict` case is unreachable
behind the `is_valid` guard; it is given inert values. -/
def Audio.resolve (c : Collab) :
    AudioFile → Option (List (List ℚ)) × String × ℤ × ℤ × Option ℤ
  | .dict (some s) r _ ch => (some s, "", r.getD 0, (shape1 s : ℤ), ch)
  | .dict none _ (some a) ch =>
    (none, a, (c.probe a).sample_rate, (c.probe a).num_frames, ch)
  | .dict none _ none _ => (none, "", 0, 0, none)
  | .path p => (none, p, (c.probe p).sample_rate, (c.probe p).num_frames, none)

/-- Lines 239-244: obtain the native-rate data (decode a path, or slice the
in-memory buffer along time) and apply the optional channel selection
`original_data[channel - 1 : channel, :]`. -/
def Audio.selectData (c : Collab) (samplesOpt : Option (List (List ℚ)))
    (path : String) (o n : ℤ) (channel : Option ℤ) : List (List ℚ) :=
  let data :=
    match samplesOpt with
    | none => c.decode path o n
    | some s => timeSlice s o (o + n)
  match channel with
  | some ch => pySlice data (ch - 1) ch
  | none => data

/-- `Audio.downmix_and_resample`: average to mono when configured and
multi-channel, then resample unless the rates already agree exactly. In the
mono resample branch the source reads `samples[0]`, an `IndexError` on an
empty buffer. -/
def Audio.downmix_and_resample (au : Audio) (c : Collab)
    (samples : List (List ℚ)) (sample_rate : ℤ) : Except AudioError (List (List ℚ)) :=
  let samples := if au.mono ∧ 1 < samples.length then [meanRow samples] else samples
  if au.sample_rate ≠ sample_rate then
    if au.mono then
      match samples with
      | [] => .error .indexError
      | s0 :: _ => .ok [c.resampleSeq s0 sample_rate au.sample_rate]
    else
      .ok (List.transpose (c.resampleMat (List.transpose samples) sample_rate au.sample_rate))
  else
    .ok samples

/-- Lines 218-246 of `Audio.__call__`, after source resolution: translate
the window to the native rate, bounds-check it, read and channel-select the
data, and hand it to `downmix_and_resample`. -/
def Audio.readFrom (au : Audio) (c : Collab) (samplesOpt : Option (List (List ℚ)))
    (path : String) (native_rate native_total : ℤ) (channel : Option ℤ)
    (sample_offset : ℤ) (num_samples : Option ℤ) : Except AudioError (List (List ℚ)) :=
  let o := originalSampleOffset sample_offset native_rate au.sample_rate
  let n := originalNumSamples num_samples native_total o native_rate au.sample_rate
  if o + n > native_total then .error .rangeOverflowError
  else au.downmix_and_resample c (Audio.selectData c samplesOpt path o n channel) native_rate

/-- `Audio.__call__`: validate the descriptor, resolve the source, then read. -/
def Audio.call (au : Audio) (c : Collab) (file : AudioFile)
    (sample_offset : ℤ) (num_samples : Option ℤ) : Except AudioError (List (List ℚ)) :=
  match Audio.is_valid file with
  | .error e => .error e
  | .ok _ =>
    match Audio.resolve c file with
    | (samplesOpt, path, native_rate, native_total, channel) =>
      au.readFrom c samplesOpt path native_rate native_total channel sample_offset num_samples

/-- `Audio.get_num_samples`: validate, then project the native total sample
count to the target rate with true division (no rounding). The `dict` cases
with a missing key are unreachable behind the `is_valid` guard. -/
def Audio.get_num_samples (au : Audio) (probe : String → MediaInfo)
    (file : AudioFile) : Except AudioError ℚ :=
  match Audio.is_valid file with
  | .error e => .error e
  | .ok _ =>
    match file with
    | .dict (some s) r _ _ =>
      .ok ((shape1 s : ℚ) * (au.sample_rate : ℚ) / ((r.getD 0 : ℤ) : ℚ))
    | .dict none _ (some a) _ =>
      .ok (((probe a).num_frames : ℚ) * (au.sample_rate : ℚ) / ((probe a).sample_rate : ℚ))
    | .dict none _ none _ => .error .ambiguousSourceError
    | .path p =>
      .ok (((probe p).num_frames : ℚ) * (au.sample_rate : ℚ) / ((probe p).sample_rate : ℚ))

/-- Root-mean-square of one channel row: per-channel
`samples.square().mean(dim=1).sqrt()`, the mean over time being the sum of
squares divided by the row length. -/
noncomputable def rmsOf (ch : List ℝ) : ℝ :=
  Real.sqrt ((ch.map (fun v => v ^ 2)).sum / (ch.length : ℝ))

/-- Index transpose `samples.t()` of a 2-D real buffer: row `t` of the
result collects entry `t` of every channel row. On the rectangular buffers
torch produces this is exactly torch's transpose. -/
noncomputable def tposeR (b : List (List ℝ)) : List (List ℝ) :=
  (List.range (shape1 b)).map (fun t => b.map (fun row => row.getD t 0))

/-- `Audio.rms_normalize`: `(samples.t() / (rms + 1e-8)).t()`, the division
broadcasting the per-channel vector `rms + 1e-8` across each time row of the
transposed buffer. -/
noncomputable def Audio.rms_normalize (samples : List (List ℝ)) : List (List ℝ) :=
  let rms := samples.map rmsOf
  tposeR ((tposeR samples).map
    (fun row => List.zipWith (fun x d => x / d) row (rms.map (fun v => v + 1e-8))))

/-- Modelled from the spec's words (section 4.2), for comparison with the
source: `to_native_offset(target_offset, native_rate, target_rate) =
round(target_offset * native_rate / target_rate)`. -/
def to_native_offset (target_offset native_rate target_rate : ℤ) : ℤ :=
  pyRound ((target_offset : ℚ) * (native_rate : ℚ) / (target_rate : ℚ))

/-- Modelled from the spec's words (section 4.2), for comparison with the
source: `to_native_length(target_length, native_rate, target_rate) =
round(target_length * native_rate / target_rate)`. -/
def to_native_length (target_length native_rate target_rate : ℤ) : ℤ :=
  pyRound ((target_length : ℚ) * (native_rate : ℚ) / (target_rate : ℚ))

/-- A trivial collaborator bundle used to instantiate theorems on concrete
in-memory descriptors (where no collaborator is ever consulted). -/
def noCollab : Collab :=
  { probe := fun _ => ⟨0, 0⟩
    decode := fun _ _ _ => []
    resampleSeq := fun s _ _ => s
    resampleMat := fun m _ _ => m }

/-- A concrete collaborator bundle standing in for a probed and decoded
2-channel, 3-frame file at native rate 10, used to instantiate theorems on
path-backed descriptors. -/
def probeCollab : Collab :=
  { probe := fun _ => ⟨10, 3⟩
    decode := fun _ _ _ => [[1, 2, 3], [4, 5, 6]]
    resampleSeq := fun s _ _ => s
    resampleMat := fun m _ _ => m }

theorem pyRound_intCast (z : ℤ) : pyRound (z : ℚ) = z := by
  simp only [pyRound, Int.floor_intCast, sub_self]
  norm_num

theorem take_one_drop {α : Type} (l : List α) (k : ℕ) (hk : k < l.length) (d : α) :
    (l.drop k).take 1 = [l.getD k d] := by
  rw [List.drop_eq_getElem_cons hk, List.getD_eq_getElem l d hk]
  simp only [List.take_succ_cons, List.take_zero]

theorem pySlice_full {α : Type} (l : List α) : pySlice l 0 (l.length : ℤ) = l := by
  have h0 : pyBound l.length 0 = 0 := by simp [pyBound]
  have h1 : pyBound l.length (l.length : ℤ) = l.length := by
    simp only [pyBound, if_neg (show ¬ ((l.length : ℤ) < 0) by omega)]
    omega
  rw [pySlice, h0, h1]
  simp

theorem pySlice_singleton {α : Type} (l : List α) (d : α) (ch : ℤ) (h1 : 1 ≤ ch)
    (h2 : ch.toNat ≤ l.length) : pySlice l (ch - 1) ch = [l.getD (ch - 1).toNat d] := by
  have hlt : (ch - 1).toNat < l.length := by omega
  have hb1 : pyBound l.length (ch - 1) = (ch - 1).toNat := by
    simp only [pyBound, if_neg (by omega : ¬ ch - 1 < 0)]
    omega
  have hb2 : pyBound l.length ch = ch.toNat := by
    simp only [pyBound, if_neg (by omega : ¬ ch < 0)]
    omega
  have hsub : ch.toNat - (ch - 1).toNat = 1 := by omega
  rw [pySlice, hb1, hb2, hsub]
  exact take_one_drop l _ hlt d

theorem pySlice_oob {α : Type} (l : List α) (ch : ℤ) (h1 : 1 ≤ ch)
    (h2 : l.length < ch.toNat) : pySlice l (ch - 1) ch = [] := by
  have hb1 : pyBound l.length (ch - 1) = l.length := by
    simp only [pyBound, if_neg (by omega : ¬ ch - 1 < 0)]
    omega
  rw [pySlice, hb1]
  simp

theorem pySlice_start_ge {α : Type} (l : List α) (a b : ℤ)
    (ha : (l.length : ℤ) ≤ a) : pySlice l a b = [] := by
  have hb1 : pyBound l.length a = l.length := by
    by_cases h : a < 0
    · omega
    · simp only [pyBound, if_neg h]
      omega
  rw [pySlice, hb1]
  simp

theorem timeSlice_full {α : Type} (s : List (List α)) (T : ℕ)
    (hrect : ∀ row ∈ s, row.length = T) : timeSlice s 0 (T : ℤ) = s := by
  induction s with
  | nil => rfl
  | cons row rest ih =>
    have hr : row.length = T := hrect row (by simp)
    have : pySlice row 0 (T : ℤ) = row := by
      rw [← hr]
      exact pySlice_full row
    simp only [timeSlice, List.map_cons, this]
    have := ih (fun r hmem => hrect r (by simp [hmem]))
    simpa [timeSlice] using this

theorem timeSlice_length {α : Type} (s : List (List α)) (lo hi : ℤ) :
    (timeSlice s lo hi).length = s.length := by
  simp [timeSlice]

theorem timeSlice_getD (s : List (List ℚ)) (lo hi : ℤ) (k : ℕ) (hk : k < s.length) :
    (timeSlice s lo hi).getD k [] = pySlice (s.getD k []) lo hi := by
  have hk2 : k < (timeSlice s lo hi).length := by simpa [timeSlice]
  rw [List.getD_eq_getElem _ _ hk2, List.getD_eq_getElem _ _ hk]
  simp [timeSlice]

/-- C3 — window translation to the native rate. `read` computes the native
offset as `round(sample_offset * native_rate / target_rate)`; an explicit
`num_samples` is translated by the same rounding rule, independently of the
offset; an omitted `num_samples` defaults to `native_total - native_offset`.
The first two identities compare the source's computation against the spec
formulas `to_native_offset` and `to_native_length`. -/
theorem read_window_translation :
    (∀ off nr tr : ℤ, originalSampleOffset off nr tr = to_native_offset off nr tr)
    ∧ (∀ (n total o nr tr : ℤ),
        originalNumSamples (some n) total o nr tr = to_native_length n nr tr)
    ∧ (∀ (n total o o' nr tr : ℤ),
        originalNumSamples (some n) total o nr tr
          = originalNumSamples (some n) total o' nr tr)
    ∧ (∀ total o nr tr : ℤ, originalNumSamples none total o nr tr = total - o) :=
  ⟨fun _ _ _ => rfl, fun _ _ _ _ _ => rfl, fun _ _ _ _ _ _ => rfl, fun _ _ _ _ => rfl⟩

/-- C5 — descriptor validation. `is_valid` fails exactly on mappings, and
there in source order: a `samples` buffer whose channel count exceeds its
time length fails with `ShapeError` (the `len(shape) != 2` disjunct of that
check is unrepresentable here, inner lists being 2-D by construction), then
a `samples` buffer without a `sample_rate` fails with `MissingRateError`,
and a mapping with neither `samples` nor `audio` fails with
`AmbiguousSourceError`; a bare path or a mapping carrying `audio` (and no
`samples`) always passes. The check is a pure function of the descriptor:
no collaborator argument is even consumed. -/
theorem is_valid_characterization :
    (∀ p, Audio.is_valid (.path p) = .ok true)
    ∧ (∀ s r a ch, Audio.is_valid (.dict (some s) r a ch) =
        (if shape1 s < shape0 s then .error .shapeError
         else if r = none then .error .missingRateError
         else .ok true))
    ∧ (∀ r a ch, Audio.is_valid (.dict none r (some a) ch) = .ok true)
    ∧ (∀ r ch, Audio.is_valid (.dict none r none ch) = .error .ambiguousSourceError) := by
  refine ⟨fun p => rfl, fun s r a ch => ?_, fun r a ch => rfl, fun r ch => rfl⟩
  by_cases hs : shape1 s < shape0 s
  · simp [Audio.is_valid, hs, gt_iff_lt]
  · cases r with
    | none => simp [Audio.is_valid, hs]
    | some rr => simp [Audio.is_valid, hs]

/-- C4 — `get_num_samples` projects the native total sample count to the
target rate by true rational division `native_total * target_rate /
native_rate`, with no rounding, for each of the three descriptor shapes. -/
theorem get_num_samples_exact :
    (∀ (au : Audio) (probe : String → MediaInfo) (s : List (List ℚ)) (r : ℤ)
        (a : Option String) (ch : Option ℤ), shape0 s ≤ shape1 s →
      Audio.get_num_samples au probe (.dict (some s) (some r) a ch) =
        .ok ((shape1 s : ℚ) * (au.sample_rate : ℚ) / (r : ℚ)))
    ∧ (∀ (au : Audio) (probe : String → MediaInfo) (r : Option ℤ) (a : String)
        (ch : Option ℤ),
      Audio.get_num_samples au probe (.dict none r (some a) ch) =
        .ok (((probe a).num_frames : ℚ) * (au.sample_rate : ℚ) / ((probe a).sample_rate : ℚ)))
    ∧ (∀ (au : Audio) (probe : String → MediaInfo) (p : String),
      Audio.get_num_samples au probe (.path p) =
        .ok (((probe p).num_frames : ℚ) * (au.sample_rate : ℚ) / ((probe p).sample_rate : ℚ))) := by
  refine ⟨fun au probe s r a ch hs => ?_, fun au probe r a ch => rfl, fun au probe p => rfl⟩
  have : Audio.is_valid (.dict (some s) (some r) a ch) = .ok true := by
    simp [Audio.is_valid, not_lt.mpr hs, gt_iff_lt, Nat.not_lt.mpr hs]
  simp [Audio.get_num_samples, this]

/-- Witness for C4 at a concrete input: a 1-channel, 3-sample buffer at
native rate 2 read at target rate 3 projects to the fractional length 9/2. -/
theorem get_num_samples_exact_witness :
    shape0 [[(1 : ℚ), 2, 3]] ≤ shape1 [[(1 : ℚ), 2, 3]]
    ∧ Audio.get_num_samples ⟨3, true⟩ (fun _ => ⟨0, 0⟩)
        (.dict (some [[(1 : ℚ), 2, 3]]) (some 2) none none) = .ok (9 / 2) := by
  constructor
  · simp [shape0, shape1]
  · have := get_num_samples_exact.1 ⟨3, true⟩ (fun _ => ⟨0, 0⟩) [[(1 : ℚ), 2, 3]] 2 none none
      (by simp [shape0, shape1])
    rw [this]
    norm_num [shape1]

/-- C2 — overflow rejection. Whenever the translated native window exceeds
the source (`native_offset + native_length > native_total`), `read` fails
with `RangeOverflowError` — the read is aborted before any data is sliced or
decoded, so no truncated or clamped buffer can be returned. Holds for every
descriptor shape that passes validation. -/
theorem read_overflow_rejected (au : Audio) (c : Collab) (file : AudioFile)
    (off : ℤ) (num : Option ℤ) (o n total : ℤ)
    (hv : Audio.is_valid file = .ok true)
    (ho : originalSampleOffset off (Audio.resolve c file).2.2.1 au.sample_rate = o)
    (hn : originalNumSamples num (Audio.resolve c file).2.2.2.1 o
      (Audio.resolve c file).2.2.1 au.sample_rate = n)
    (htot : (Audio.resolve c file).2.2.2.1 = total)
    (hover : total < o + n) :
    Audio.call au c file off num = .error .rangeOverflowError := by
  rcases hr : Audio.resolve c file with ⟨so, p, nr, tot, ch⟩
  rw [hr] at ho hn htot
  simp only at ho hn htot
  simp only [Audio.call, hv, hr, Audio.readFrom, ho, hn]
  rw [if_pos (by omega : o + n > tot)]

/-- Witness for C2: reading 4 samples from a 3-sample in-memory source at
equal rates fails with the overflow error. -/
theorem read_overflow_rejected_witness :
    Audio.is_valid (.dict (some [[(1 : ℚ), 2, 3]]) (some 10) none none) = .ok true
    ∧ Audio.call ⟨10, false⟩ noCollab (.dict (some [[(1 : ℚ), 2, 3]]) (some 10) none none)
        0 (some 4) = .error .rangeOverflowError := by
  have hv : Audio.is_valid (.dict (some [[(1 : ℚ), 2, 3]]) (some 10) none none) = .ok true := by
    simp [Audio.is_valid, shape0, shape1]
  refine ⟨hv, read_overflow_rejected ⟨10, false⟩ noCollab _ 0 (some 4) 0 4 3 hv ?_ ?_ ?_ ?_⟩
  · show originalSampleOffset 0 10 10 = 0
    have h := pyRound_intCast 0
    simp only [originalSampleOffset]
    norm_num
    simpa using h
  · show originalNumSamples (some 4) 3 0 10 10 = 4
    have h := pyRound_intCast 4
    simp only [originalNumSamples]
    norm_num
    simpa using h
  · rfl
  · norm_num

/-- C6 — equal-rate fast path. When the in-memory source's native rate is
exactly the configured target rate, a full read performs no resampling and
returns the buffer unchanged, except for the mono downmix when it is
configured and the buffer is multi-channel. -/
theorem read_equal_rate_passthrough (c : Collab) (x : List (List ℚ)) (r : ℤ) (mono : Bool)
    (hrect : ∀ row ∈ x, row.length = shape1 x) (hC : shape0 x ≤ shape1 x) :
    Audio.call ⟨r, mono⟩ c (.dict (some x) (some r) none none) 0 none =
      .ok (if mono ∧ 1 < x.length then [meanRow x] else x) := by
  have hv : Audio.is_valid (.dict (some x) (some r) none none) = .ok true := by
    simp [Audio.is_valid, gt_iff_lt, Nat.not_lt.mpr hC]
  have ho : originalSampleOffset 0 r r = 0 := by
    have h := pyRound_intCast 0
    simp only [originalSampleOffset]
    norm_num
    simpa using h
  simp only [Audio.call, hv, Audio.resolve, Option.getD_some, Audio.readFrom, ho,
    originalNumSamples, Audio.selectData]
  rw [if_neg (by omega : ¬ ((0 : ℤ) + ((shape1 x : ℤ) - 0) > (shape1 x : ℤ)))]
  have hslice : timeSlice x 0 (0 + ((shape1 x : ℤ) - 0)) = x := by
    have : (0 : ℤ) + ((shape1 x : ℤ) - 0) = (shape1 x : ℤ) := by ring
    rw [this]
    exact timeSlice_full x (shape1 x) hrect
  rw [hslice]
  simp [Audio.downmix_and_resample]

/-- Witness for C6: a 2x2 stereo buffer read back at its own rate with
`mono = false` is returned byte-for-byte. -/
theorem read_equal_rate_passthrough_witness :
    (∀ row ∈ [[(1 : ℚ), 2], [3, 4]], row.length = shape1 [[(1 : ℚ), 2], [3, 4]])
    ∧ Audio.call ⟨8, false⟩ noCollab (.dict (some [[(1 : ℚ), 2], [3, 4]]) (some 8) none none)
        0 none = .ok [[(1 : ℚ), 2], [3, 4]] := by
  constructor
  · intro row hrow
    simp [shape1] at hrow ⊢
    rcases hrow with h | h <;> simp [h]
  · have h := read_equal_rate_passthrough noCollab [[(1 : ℚ), 2], [3, 4]] 8 false
      (by intro row hrow
          simp [shape1] at hrow ⊢
          rcases hrow with h | h <;> simp [h])
      (by simp [shape0, shape1])
    simpa using h

/-- C7 — mono downmix. With `mono` configured and a multi-channel buffer,
`downmix_and_resample` first replaces the buffer with the per-time-step
arithmetic mean across channels — a 1-channel buffer — and only then
resamples (the resampling primitive receives the mean); for a 2-channel
buffer the mean is the elementwise `(a + b) / 2`. -/
theorem downmix_mean (au : Audio) (c : Collab) (s : List (List ℚ)) (r : ℤ)
    (a b : List ℚ) (hb : b.length = a.length) :
    (au.mono = true → 1 < s.length →
      au.downmix_and_resample c s r =
        (if au.sample_rate ≠ r then .ok [c.resampleSeq (meanRow s) r au.sample_rate]
         else .ok [meanRow s]))
    ∧ meanRow [a, b] = List.zipWith (fun x y => (x + y) / 2) a b := by
  constructor
  · intro hm hlen
    simp only [Audio.downmix_and_resample, hm, hlen, and_self, if_true, true_and, if_pos]
  · apply List.ext_getElem
    · simp [meanRow, shape1, hb]
    · intro i h1 h2
      have hia : i < a.length := by simpa [meanRow, shape1] using h1
      have hib : i < b.length := by omega
      simp only [meanRow, shape1, List.headD_cons, List.getElem_map, List.getElem_range,
        List.getElem_zipWith, List.map_cons, List.map_nil, List.sum_cons, List.sum_nil,
        List.length_cons, List.length_nil]
      rw [List.getD_eq_getElem a 0 hia, List.getD_eq_getElem b 0 hib]
      push_cast
      ring

/-- Witness for C7: the mono mean of the stereo buffer `[[1,2],[3,4]]` is
`[2,3]`, elementwise `(a+b)/2`. -/
theorem downmix_mean_witness :
    ([(3 : ℚ), 4].length = [(1 : ℚ), 2].length)
    ∧ meanRow [[(1 : ℚ), 2], [3, 4]] = [2, 3] := by
  refine ⟨rfl, ?_⟩
  have h := (downmix_mean ⟨5, true⟩ noCollab [[(1 : ℚ), 2], [3, 4]] 5
    [(1 : ℚ), 2] [(3 : ℚ), 4] rfl).2
  rw [h]
  norm_num [List.zipWith]

theorem originalSampleOffset_zero (nr tr : ℤ) : originalSampleOffset 0 nr tr = 0 := by
  have h := pyRound_intCast 0
  simp only [originalSampleOffset]
  norm_num
  simpa using h

theorem pyRound_mul_div_same (k r : ℤ) (hr : (r : ℚ) ≠ 0) :
    pyRound ((k : ℚ) * (r : ℚ) / (r : ℚ)) = k := by
  rw [mul_div_assoc, div_self hr, mul_one, pyRound_intCast]

theorem timeSlice_empty_rows (s : List (List ℚ)) (T : ℕ) (o hi : ℤ)
    (hrect : ∀ row ∈ s, row.length = T) (ho : (T : ℤ) ≤ o) :
    timeSlice s o hi = s.map (fun _ => []) := by
  simp only [timeSlice]
  apply List.map_congr_left
  intro row hrow
  exact pySlice_start_ge row o hi (by rw [hrect row hrow]; exact ho)

theorem meanRow_empty_rows (s : List (List ℚ)) :
    meanRow (s.map (fun _ => ([] : List ℚ))) = [] := by
  cases s <;> simp [meanRow, shape1]

theorem downmix_ok_of_ne_nil (au : Audio) (c : Collab) (sel : List (List ℚ)) (r : ℤ)
    (hne : sel ≠ []) (hpath : au.sample_rate = r ∨ au.mono = true) :
    ∃ y, au.downmix_and_resample c sel r = .ok y ∧ 1 ≤ y.length := by
  have hlen : 1 ≤ sel.length := List.length_pos.mpr hne
  by_cases hr : au.sample_rate = r
  · refine ⟨if au.mono ∧ 1 < sel.length then [meanRow sel] else sel, ?_, ?_⟩
    · simp [Audio.downmix_and_resample, hr]
    · split
      · simp
      · exact hlen
  · have hm : au.mono = true := by
      rcases hpath with h | h
      · exact absurd h hr
      · exact h
    have hsn : (if au.mono = true ∧ 1 < sel.length then [meanRow sel] else sel) ≠ [] := by
      split
      · simp
      · exact hne
    obtain ⟨h0, t0, he⟩ := List.exists_cons_of_ne_nil hsn
    refine ⟨[c.resampleSeq h0 r au.sample_rate], ?_, by simp⟩
    unfold Audio.downmix_and_resample
    rw [if_pos hr, if_pos hm]
    rw [he]

/-- C1 counterexample — an out-of-range channel index does NOT make the read
fail: requesting channel 5 of a 2-channel in-memory source succeeds and
returns a buffer with zero channels (the slice `[channel-1 : channel, :]`
clamps, and no `ChannelIndexError` exists anywhere in the code). -/
theorem read_oob_channel_no_error :
    Audio.call ⟨10, false⟩ noCollab
      (.dict (some [[(1 : ℚ), 2, 3], [4, 5, 6]]) (some 10) none (some 5)) 0 (some 3) =
      .ok [] := by
  have hv : Audio.is_valid
      (.dict (some [[(1 : ℚ), 2, 3], [4, 5, 6]]) (some 10) none (some 5)) = .ok true := by
    simp [Audio.is_valid, shape0, shape1]
  have ho : originalSampleOffset 0 10 10 = 0 := originalSampleOffset_zero 10 10
  have hn : originalNumSamples (some 3) (shape1 [[(1 : ℚ), 2, 3], [4, 5, 6]] : ℤ) 0 10 10 = 3 := by
    simp only [originalNumSamples]
    exact pyRound_mul_div_same 3 10 (by norm_num)
  simp only [Audio.call, hv, Audio.resolve, Option.getD_some, Audio.readFrom, ho, hn,
    Audio.selectData]
  rw [if_neg (by norm_num [shape1] : ¬ ((0 : ℤ) + 3 > (shape1 [[(1 : ℚ), 2, 3], [4, 5, 6]] : ℤ)))]
  have hsel : pySlice (timeSlice [[(1 : ℚ), 2, 3], [4, 5, 6]] 0 (0 + 3)) (5 - 1) 5 = [] := by
    apply pySlice_oob _ 5 (by norm_num)
    simp [timeSlice]
  rw [hsel]
  simp [Audio.downmix_and_resample]

/-- C1, amended — channel selection, for both descriptor shapes that carry
a channel index (in-memory mapping and path-in-a-mapping). With a 1-based
channel index `ch`, the buffer handed to downmixing/resampling is exactly
the single 0-based channel `ch - 1` of the read data (the time-sliced
in-memory buffer, or the decoded window), of shape `(1, length)`, whenever
`ch` is in range for the data's channel count; when `ch` exceeds it the
selection is instead empty, and at equal rates the read then succeeds with
a zero-channel buffer rather than failing (the code has no
`ChannelIndexError`). -/
theorem read_channel_selection (au : Audio) (c : Collab) (ch off : ℤ)
    (num : Option ℤ) (hch : 1 ≤ ch) :
    (∀ (s : List (List ℚ)) (r o n : ℤ),
      shape0 s ≤ shape1 s →
      originalSampleOffset off r au.sample_rate = o →
      originalNumSamples num (shape1 s : ℤ) o r au.sample_rate = n →
      o + n ≤ (shape1 s : ℤ) →
      (ch.toNat ≤ s.length →
        Audio.call au c (.dict (some s) (some r) none (some ch)) off num =
          au.downmix_and_resample c [pySlice (s.getD (ch - 1).toNat []) o (o + n)] r)
      ∧ (s.length < ch.toNat →
        Audio.call au c (.dict (some s) (some r) none (some ch)) off num =
          au.downmix_and_resample c [] r)
      ∧ (s.length < ch.toNat → au.sample_rate = r →
        Audio.call au c (.dict (some s) (some r) none (some ch)) off num = .ok []))
    ∧ (∀ (a : String) (rr : Option ℤ) (o n : ℤ),
      originalSampleOffset off (c.probe a).sample_rate au.sample_rate = o →
      originalNumSamples num (c.probe a).num_frames o (c.probe a).sample_rate
        au.sample_rate = n →
      o + n ≤ (c.probe a).num_frames →
      (ch.toNat ≤ (c.decode a o n).length →
        Audio.call au c (.dict none rr (some a) (some ch)) off num =
          au.downmix_and_resample c [(c.decode a o n).getD (ch - 1).toNat []]
            (c.probe a).sample_rate)
      ∧ ((c.decode a o n).length < ch.toNat →
        Audio.call au c (.dict none rr (some a) (some ch)) off num =
          au.downmix_and_resample c [] (c.probe a).sample_rate)
      ∧ ((c.decode a o n).length < ch.toNat → au.sample_rate = (c.probe a).sample_rate →
        Audio.call au c (.dict none rr (some a) (some ch)) off num = .ok [])) := by
  constructor
  · intro s r o n hC ho hn hbound
    have hv : Audio.is_valid (.dict (some s) (some r) none (some ch)) = .ok true := by
      simp [Audio.is_valid, gt_iff_lt, Nat.not_lt.mpr hC]
    have hcall : Audio.call au c (.dict (some s) (some r) none (some ch)) off num =
        au.downmix_and_resample c (pySlice (timeSlice s o (o + n)) (ch - 1) ch) r := by
      simp only [Audio.call, hv, Audio.resolve, Option.getD_some, Audio.readFrom, ho, hn,
        Audio.selectData]
      rw [if_neg (by omega : ¬ (o + n > (shape1 s : ℤ)))]
    refine ⟨fun hin => ?_, fun hout => ?_, fun hout hr => ?_⟩
    · rw [hcall]
      have h1 : pySlice (timeSlice s o (o + n)) (ch - 1) ch =
          [(timeSlice s o (o + n)).getD (ch - 1).toNat []] :=
        pySlice_singleton _ [] ch hch (by rw [timeSlice_length]; exact hin)
      rw [h1, timeSlice_getD s o (o + n) (ch - 1).toNat (by omega)]
    · rw [hcall, pySlice_oob _ ch hch (by rw [timeSlice_length]; exact hout)]
    · rw [hcall, pySlice_oob _ ch hch (by rw [timeSlice_length]; exact hout)]
      simp [Audio.downmix_and_resample, hr]
  · intro a rr o n ho hn hbound
    have hv : Audio.is_valid (.dict none rr (some a) (some ch)) = .ok true := rfl
    have hcall : Audio.call au c (.dict none rr (some a) (some ch)) off num =
        au.downmix_and_resample c (pySlice (c.decode a o n) (ch - 1) ch)
          (c.probe a).sample_rate := by
      simp only [Audio.call, hv, Audio.resolve, Audio.readFrom, ho, hn, Audio.selectData]
      rw [if_neg (by omega : ¬ (o + n > (c.probe a).num_frames))]
    refine ⟨fun hin => ?_, fun hout => ?_, fun hout hr => ?_⟩
    · rw [hcall, pySlice_singleton _ [] ch hch hin]
    · rw [hcall, pySlice_oob _ ch hch hout]
    · rw [hcall, pySlice_oob _ ch hch hout]
      simp [Audio.downmix_and_resample, hr]

/-- Witness for the amended C1: channel 2 of a 2-channel source is in range
and the read returns exactly channel index 1, shape `(1, 3)` — both for an
in-memory descriptor and for a path-backed one decoding the same data. -/
theorem read_channel_selection_witness :
    (2 : ℤ).toNat ≤ [[(1 : ℚ), 2, 3], [4, 5, 6]].length
    ∧ Audio.call ⟨10, false⟩ noCollab
        (.dict (some [[(1 : ℚ), 2, 3], [4, 5, 6]]) (some 10) none (some 2)) 0 (some 3) =
        .ok [[(4 : ℚ), 5, 6]]
    ∧ Audio.call ⟨10, false⟩ probeCollab (.dict none none (some "f") (some 2)) 0 (some 3) =
        .ok [[(4 : ℚ), 5, 6]] := by
  refine ⟨by norm_num, ?_, ?_⟩
  · have h := ((read_channel_selection ⟨10, false⟩ noCollab 2 0 (some 3) (by norm_num)).1
      [[(1 : ℚ), 2, 3], [4, 5, 6]] 10 0 3
      (by simp [shape0, shape1])
      (originalSampleOffset_zero 10 10)
      (by simp only [originalNumSamples]; exact pyRound_mul_div_same 3 10 (by norm_num))
      (by norm_num [shape1])).1 (by norm_num)
    rw [h]
    have hs : pySlice ([[(1 : ℚ), 2, 3], [4, 5, 6]].getD ((2 : ℤ) - 1).toNat []) 0 (0 + 3) =
        [(4 : ℚ), 5, 6] := by
      have : ([[(1 : ℚ), 2, 3], [4, 5, 6]].getD ((2 : ℤ) - 1).toNat []) = [(4 : ℚ), 5, 6] := by
        norm_num
      rw [this]
      have h3 : ((0 : ℤ) + 3) = (([(4 : ℚ), 5, 6].length : ℕ) : ℤ) := by norm_num
      rw [h3]
      exact pySlice_full _
    rw [hs]
    simp [Audio.downmix_and_resample]
  · have h := ((read_channel_selection ⟨10, false⟩ probeCollab 2 0 (some 3) (by norm_num)).2
      "f" none 0 3
      (originalSampleOffset_zero 10 10)
      (by simp only [originalNumSamples]; exact pyRound_mul_div_same 3 10 (by norm_num))
      (by norm_num [probeCollab])).1 (by norm_num [probeCollab])
    rw [h]
    have hs : (probeCollab.decode "f" 0 3).getD ((2 : ℤ) - 1).toNat [] = [(4 : ℚ), 5, 6] := by
      norm_num [probeCollab]
    rw [hs]
    simp [Audio.downmix_and_resample, probeCollab]

/-- C9 counterexample — a successful read can return a buffer whose channel
axis has size 0: a 0-channel in-memory buffer passes validation
(`0 ≤ 0` for the shape check) and reads back with 0 channels, contradicting
"first axis channel of size at least 1". -/
theorem read_zero_channel_result :
    Audio.call ⟨5, true⟩ noCollab
      (.dict (some ([] : List (List ℚ))) (some 5) none none) 0 none = .ok [] := by
  have hv : Audio.is_valid (.dict (some ([] : List (List ℚ))) (some 5) none none) = .ok true := by
    simp [Audio.is_valid, shape0, shape1]
  have ho : originalSampleOffset 0 5 5 = 0 := originalSampleOffset_zero 5 5
  simp only [Audio.call, hv, Audio.resolve, Option.getD_some, Audio.readFrom, ho,
    originalNumSamples, Audio.selectData]
  rw [if_neg (by norm_num [shape1] :
    ¬ ((0 : ℤ) + ((shape1 ([] : List (List ℚ)) : ℤ) - 0) > (shape1 ([] : List (List ℚ)) : ℤ)))]
  simp [timeSlice, Audio.downmix_and_resample]

theorem channelSelect_ne_nil (data : List (List ℚ)) (chOpt : Option ℤ)
    (hdata : data ≠ [])
    (hch : ∀ chv, chOpt = some chv → 1 ≤ chv ∧ chv.toNat ≤ data.length) :
    (match chOpt with
     | some ch => pySlice data (ch - 1) ch
     | none => data) ≠ [] := by
  cases chOpt with
  | none => exact hdata
  | some chv =>
    obtain ⟨h1, h2⟩ := hch chv rfl
    show pySlice data (chv - 1) chv ≠ []
    rw [pySlice_singleton data [] chv h1 h2]
    simp

/-- C9, amended — every successful read, across all three descriptor
shapes, returns a `(channel, time)` buffer whose channel axis has size at
least 1 provided the source data has at least one channel (for path-backed
sources: the decoded window is non-empty), any requested channel index is
in range, and either no resampling is needed (equal rates) or mono is
configured (the non-mono resample branch's channel count is fixed by the
external resample collaborator); a zero-channel source or an out-of-range
channel selection instead yields a buffer with zero channels. -/
theorem read_positive_channel_count (au : Audio) (c : Collab) (off : ℤ)
    (num : Option ℤ) :
    (∀ (s : List (List ℚ)) (r : ℤ) (chOpt : Option ℤ) (o n : ℤ),
      shape0 s ≤ shape1 s → s ≠ [] →
      (∀ chv, chOpt = some chv → 1 ≤ chv ∧ chv.toNat ≤ s.length) →
      originalSampleOffset off r au.sample_rate = o →
      originalNumSamples num (shape1 s : ℤ) o r au.sample_rate = n →
      o + n ≤ (shape1 s : ℤ) →
      (au.sample_rate = r ∨ au.mono = true) →
      ∃ y, Audio.call au c (.dict (some s) (some r) none chOpt) off num = .ok y
        ∧ 1 ≤ y.length)
    ∧ (∀ (a : String) (rr : Option ℤ) (chOpt : Option ℤ) (o n : ℤ),
      originalSampleOffset off (c.probe a).sample_rate au.sample_rate = o →
      originalNumSamples num (c.probe a).num_frames o (c.probe a).sample_rate
        au.sample_rate = n →
      o + n ≤ (c.probe a).num_frames →
      c.decode a o n ≠ [] →
      (∀ chv, chOpt = some chv → 1 ≤ chv ∧ chv.toNat ≤ (c.decode a o n).length) →
      (au.sample_rate = (c.probe a).sample_rate ∨ au.mono = true) →
      ∃ y, Audio.call au c (.dict none rr (some a) chOpt) off num = .ok y
        ∧ 1 ≤ y.length)
    ∧ (∀ (p : String) (o n : ℤ),
      originalSampleOffset off (c.probe p).sample_rate au.sample_rate = o →
      originalNumSamples num (c.probe p).num_frames o (c.probe p).sample_rate
        au.sample_rate = n →
      o + n ≤ (c.probe p).num_frames →
      c.decode p o n ≠ [] →
      (au.sample_rate = (c.probe p).sample_rate ∨ au.mono = true) →
      ∃ y, Audio.call au c (.path p) off num = .ok y ∧ 1 ≤ y.length) := by
  refine ⟨?_, ?_, ?_⟩
  · intro s r chOpt o n hC hs hch ho hn hbound hpath
    have hv : Audio.is_valid (.dict (some s) (some r) none chOpt) = .ok true := by
      simp [Audio.is_valid, gt_iff_lt, Nat.not_lt.mpr hC]
    have hcall : Audio.call au c (.dict (some s) (some r) none chOpt) off num =
        au.downmix_and_resample c (Audio.selectData c (some s) "" o n chOpt) r := by
      simp only [Audio.call, hv, Audio.resolve, Option.getD_some, Audio.readFrom, ho, hn]
      rw [if_neg (by omega : ¬ (o + n > (shape1 s : ℤ)))]
    have hne : Audio.selectData c (some s) "" o n chOpt ≠ [] := by
      simp only [Audio.selectData]
      refine channelSelect_ne_nil _ chOpt ?_ ?_
      · simp only [timeSlice]
        simpa using hs
      · intro chv h
        obtain ⟨h1, h2⟩ := hch chv h
        exact ⟨h1, by rw [timeSlice_length]; exact h2⟩
    obtain ⟨y, hy, hylen⟩ := downmix_ok_of_ne_nil au c _ r hne hpath
    exact ⟨y, by rw [hcall]; exact hy, hylen⟩
  · intro a rr chOpt o n ho hn hbound hdec hch hpath
    have hv : Audio.is_valid (.dict none rr (some a) chOpt) = .ok true := rfl
    have hcall : Audio.call au c (.dict none rr (some a) chOpt) off num =
        au.downmix_and_resample c (Audio.selectData c none a o n chOpt)
          (c.probe a).sample_rate := by
      simp only [Audio.call, hv, Audio.resolve, Audio.readFrom, ho, hn]
      rw [if_neg (by omega : ¬ (o + n > (c.probe a).num_frames))]
    have hne : Audio.selectData c none a o n chOpt ≠ [] := by
      simp only [Audio.selectData]
      exact channelSelect_ne_nil _ chOpt hdec hch
    obtain ⟨y, hy, hylen⟩ := downmix_ok_of_ne_nil au c _ _ hne hpath
    exact ⟨y, by rw [hcall]; exact hy, hylen⟩
  · intro p o n ho hn hbound hdec hpath
    have hv : Audio.is_valid (.path p) = .ok true := rfl
    have hcall : Audio.call au c (.path p) off num =
        au.downmix_and_resample c (Audio.selectData c none p o n none)
          (c.probe p).sample_rate := by
      simp only [Audio.call, hv, Audio.resolve, Audio.readFrom, ho, hn]
      rw [if_neg (by omega : ¬ (o + n > (c.probe p).num_frames))]
    have hne : Audio.selectData c none p o n none ≠ [] := by
      simp only [Audio.selectData]
      exact hdec
    obtain ⟨y, hy, hylen⟩ := downmix_ok_of_ne_nil au c _ _ hne hpath
    exact ⟨y, by rw [hcall]; exact hy, hylen⟩

/-- Witness for the amended C9: a full-window mono read of a 2-channel
in-memory source at its own rate succeeds with at least one channel, and so
does a bare-path read whose probe/decode stand-ins report a 2-channel,
3-frame file at the target rate. -/
theorem read_positive_channel_count_witness :
    ([[(1 : ℚ), 2], [3, 4]] : List (List ℚ)) ≠ []
    ∧ (∃ y, Audio.call ⟨7, true⟩ noCollab
        (.dict (some [[(1 : ℚ), 2], [3, 4]]) (some 7) none none) 0 none = .ok y
        ∧ 1 ≤ y.length)
    ∧ (∃ y, Audio.call ⟨10, false⟩ probeCollab (.path "f") 0 none = .ok y
        ∧ 1 ≤ y.length) := by
  refine ⟨by simp, ?_, ?_⟩
  · exact (read_positive_channel_count ⟨7, true⟩ noCollab 0 none).1
      [[(1 : ℚ), 2], [3, 4]] 7 none 0 2
      (by simp [shape0, shape1])
      (by simp)
      (by intro chv h; cases h)
      (originalSampleOffset_zero 7 7)
      (by norm_num [originalNumSamples, shape1])
      (by norm_num [shape1])
      (Or.inl rfl)
  · exact (read_positive_channel_count ⟨10, false⟩ probeCollab 0 none).2.2
      "f" 0 3
      (originalSampleOffset_zero 10 10)
      (by norm_num [originalNumSamples, probeCollab])
      (by norm_num [probeCollab])
      (by simp [probeCollab])
      (Or.inl rfl)

/-- C10 counterexample — the past-the-end default read is not always
error-free: on a 0-channel in-memory source with mono configured and a
differing native rate, the negative default length still passes the bounds
check but the mono resample branch then evaluates `samples[0]` on an empty
buffer and raises `IndexError`. -/
theorem read_past_end_raises_on_channelless_resample :
    Audio.call ⟨5, true⟩ noCollab
      (.dict (some ([] : List (List ℚ))) (some 10) none none) 7 none =
      .error .indexError := by
  have hv : Audio.is_valid (.dict (some ([] : List (List ℚ))) (some 10) none none) = .ok true := by
    simp [Audio.is_valid, shape0, shape1]
  have ho : originalSampleOffset 7 10 5 = 14 := by
    have harg : ((7 : ℤ) : ℚ) * ((10 : ℤ) : ℚ) / ((5 : ℤ) : ℚ) = ((14 : ℤ) : ℚ) := by norm_num
    rw [originalSampleOffset, harg, pyRound_intCast]
  simp only [Audio.call, hv, Audio.resolve, Option.getD_some, Audio.readFrom, ho,
    originalNumSamples, Audio.selectData]
  rw [if_neg (by norm_num [shape1] :
    ¬ ((14 : ℤ) + ((shape1 ([] : List (List ℚ)) : ℤ) - 14) > (shape1 ([] : List (List ℚ)) : ℤ)))]
  simp [timeSlice, Audio.downmix_and_resample]

/-- C10, amended — past-the-end default read. For an in-memory descriptor
with `num_samples` omitted and a rounded native offset beyond the source's
native total, the default native length is negative, the bounds check still
passes (offset plus length equals the total exactly), and — when no
resampling is needed (equal native and target rates) — the read succeeds
with an empty buffer of 0 time samples: `(C, 0)`, becoming `(1, 0)` under
the mono downmix of a multi-channel source. (With unequal rates and mono,
a 0-channel source instead raises `IndexError`, per the counterexample.) -/
theorem read_past_end_empty (c : Collab) (mono : Bool) (s : List (List ℚ))
    (r off o : ℤ)
    (hrect : ∀ row ∈ s, row.length = shape1 s) (hC : shape0 s ≤ shape1 s)
    (ho : originalSampleOffset off r r = o) (hpast : (shape1 s : ℤ) < o) :
    originalNumSamples none (shape1 s : ℤ) o r r < 0
    ∧ o + originalNumSamples none (shape1 s : ℤ) o r r = (shape1 s : ℤ)
    ∧ Audio.call ⟨r, mono⟩ c (.dict (some s) (some r) none none) off none =
        .ok (if mono ∧ 1 < s.length then [[]] else s.map (fun _ => [])) := by
  refine ⟨by simp only [originalNumSamples]; omega, by simp only [originalNumSamples]; ring, ?_⟩
  have hv : Audio.is_valid (.dict (some s) (some r) none none) = .ok true := by
    simp [Audio.is_valid, gt_iff_lt, Nat.not_lt.mpr hC]
  simp only [Audio.call, hv, Audio.resolve, Option.getD_some, Audio.readFrom, ho,
    originalNumSamples, Audio.selectData]
  rw [if_neg (by omega : ¬ (o + ((shape1 s : ℤ) - o) > (shape1 s : ℤ)))]
  rw [timeSlice_empty_rows s (shape1 s) o _ hrect (le_of_lt hpast)]
  simp only [Audio.downmix_and_resample, List.length_map]
  rw [if_neg (by simp : ¬ ((⟨r, mono⟩ : Audio).sample_rate ≠ r))]
  by_cases hcond : mono = true ∧ 1 < s.length
  · rw [if_pos (by simpa using hcond), if_pos hcond, meanRow_empty_rows]
  · rw [if_neg (by simpa using hcond), if_neg hcond]

/-- Witness for the amended C10: offset 5 on a 1x2 source at equal rates
gives native length -3, a passing bounds check, and an empty `(1, 0)`
result. -/
theorem read_past_end_empty_witness :
    ((shape1 [[(1 : ℚ), 2]] : ℤ) < 5)
    ∧ originalNumSamples none (shape1 [[(1 : ℚ), 2]] : ℤ) 5 10 10 < 0
    ∧ Audio.call ⟨10, false⟩ noCollab (.dict (some [[(1 : ℚ), 2]]) (some 10) none none)
        5 none = .ok [[]] := by
  have h := read_past_end_empty noCollab false [[(1 : ℚ), 2]] 10 5 5
    (by intro row hrow
        simp [shape1] at hrow ⊢
        simp [hrow])
    (by simp [shape0, shape1])
    (by simp only [originalSampleOffset]; exact pyRound_mul_div_same 5 10 (by norm_num))
    (by norm_num [shape1])
  refine ⟨by norm_num [shape1], h.1, ?_⟩
  have h3 := h.2.2
  simpa using h3

theorem headD_eq_getD_zero {α : Type} (l : List α) (d : α) : l.headD d = l.getD 0 d := by
  cases l <;> rfl

theorem getD_map_range {α : Type} (f : ℕ → α) (n k : ℕ) (hk : k < n) (d : α) :
    ((List.range n).map f).getD k d = f k := by
  rw [List.getD_eq_getElem _ _ (by simpa using hk)]
  simp

theorem getD_map {α β : Type} (f : α → β) (l : List α) (k : ℕ) (hk : k < l.length)
    (d : β) (d' : α) : (l.map f).getD k d = f (l.getD k d') := by
  rw [List.getD_eq_getElem _ _ (by simpa using hk), List.getD_eq_getElem _ _ hk]
  simp

theorem getD_zipWith {α β γ : Type} (f : α → β → γ) (a : List α) (b : List β)
    (k : ℕ) (hka : k < a.length) (hkb : k < b.length) (d : γ) (da : α) (db : β) :
    (List.zipWith f a b).getD k d = f (a.getD k da) (b.getD k db) := by
  rw [List.getD_eq_getElem _ _ (by simp; omega),
    List.getD_eq_getElem _ _ hka, List.getD_eq_getElem _ _ hkb]
  simp

/-- C8 — RMS power normalization. For a rectangular `(C, T)` buffer with
`T ≥ 1`, `rms_normalize` preserves the shape and scales every entry of
channel `c` by the constant factor `1 / (rms_c + 1e-8)`, where `rms_c` is
the root of the mean squared sample of that channel. A pure function: the
result depends on nothing but the input buffer. -/
theorem rms_normalize_spec (x : List (List ℝ)) (T : ℕ) (hT : 0 < T)
    (hrect : ∀ row ∈ x, row.length = T) :
    (Audio.rms_normalize x).length = x.length
    ∧ (∀ row ∈ Audio.rms_normalize x, row.length = T)
    ∧ ∀ (c t : ℕ), c < x.length → t < T →
        ((Audio.rms_normalize x).getD c []).getD t 0 =
          (x.getD c []).getD t 0 * (rmsOf (x.getD c []) + 1e-8)⁻¹ := by
  by_cases hx : x = []
  · subst hx
    refine ⟨by simp [Audio.rms_normalize, tposeR, shape1], ?_, ?_⟩
    · intro row hrow
      simp [Audio.rms_normalize, tposeR, shape1] at hrow
    · intro c t hc _
      simp at hc
  · obtain ⟨hd, tl, hxe⟩ := List.exists_cons_of_ne_nil hx
    have hs1 : shape1 x = T := by
      rw [hxe, shape1, List.headD_cons]
      exact hrect hd (by rw [hxe]; simp)
    set D := (x.map rmsOf).map (fun v => v + 1e-8) with hD
    have hDlen : D.length = x.length := by simp [hD]
    set M := (tposeR x).map
      (fun row => List.zipWith (fun v d => v / d) row D) with hM
    have hres : Audio.rms_normalize x = tposeR M := by
      simp only [Audio.rms_normalize, hM, hD]
    have htlen : (tposeR x).length = T := by simp [tposeR, hs1]
    have hMlen : M.length = T := by simp [hM, htlen]
    have htgetD : ∀ t, t < T → (tposeR x).getD t [] = x.map (fun row => row.getD t 0) := by
      intro t ht
      rw [tposeR]
      exact getD_map_range _ _ t (by omega) []
    have hMgetD : ∀ t, t < T →
        M.getD t [] = List.zipWith (fun v d => v / d) (x.map (fun row => row.getD t 0)) D := by
      intro t ht
      rw [hM, getD_map _ _ t (by omega) [] [], htgetD t ht]
    have hMrow : ∀ t, t < T → (M.getD t []).length = x.length := by
      intro t ht
      rw [hMgetD t ht]
      simp [hDlen]
    have hshape1M : shape1 M = x.length := by
      rw [shape1, headD_eq_getD_zero]
      exact hMrow 0 hT
    refine ⟨?_, ?_, ?_⟩
    · rw [hres, tposeR, hshape1M]
      simp
    · intro row hrow
      rw [hres, tposeR] at hrow
      simp only [List.mem_map, List.mem_range] at hrow
      obtain ⟨c, _, hrow⟩ := hrow
      rw [← hrow]
      simp [hMlen]
    · intro c t hc ht
      rw [hres, tposeR, hshape1M, getD_map_range _ _ c hc [],
        getD_map _ M t (by omega) 0 [], hMgetD t ht,
        getD_zipWith _ _ _ c (by simpa using hc) (by omega) 0 0 0,
        getD_map _ x c hc 0 []]
      have hDc : D.getD c 0 = rmsOf (x.getD c []) + 1e-8 := by
        rw [hD, getD_map _ _ c (by simpa using hc) 0 0,
          getD_map _ x c hc 0 []]
      rw [hDc, div_eq_mul_inv]

/-- Witness for C8 at the concrete buffer `[[0]]`: shape preserved and the
single entry equals `0 * (rms + 1e-8)⁻¹`. -/
theorem rms_normalize_spec_witness :
    ((0 : ℕ) < 1 ∧ ∀ row ∈ [[(0 : ℝ)]], row.length = 1)
    ∧ (Audio.rms_normalize [[(0 : ℝ)]]).length = 1
    ∧ ((Audio.rms_normalize [[(0 : ℝ)]]).getD 0 []).getD 0 0 =
        ([(0 : ℝ)].getD 0 0) * (rmsOf [(0 : ℝ)] + 1e-8)⁻¹ := by
  have h := rms_normalize_spec [[(0 : ℝ)]] 1 (by norm_num)
    (by intro row hrow
        simp at hrow
        simp [hrow])
  refine ⟨⟨by norm_num, by intro row hrow; simp at hrow; simp [hrow]⟩, by simpa using h.1, ?_⟩
  have h3 := h.2.2 0 0 (by simp) (by norm_num)
  simpa using h3

end TorchAudiomentations
